import Mathlib

/-!
Shallow embedding of the data-preparation pipeline of the Tera dashboard
(src/app.py and src/app_v2.py): loader (drop unparseable timestamps, sort),
time-window filter with last-row fallback, column classifier
(constant vs varying), variable selection merge, resampler, min-max
normalizer applied to a chart-facing copy, and CSV export.

Frames are modelled positionally: a header of numeric column names plus
rows carrying a timestamp (an integer instant, UTC) and a list of optional
rational values parallel to the header (missing cells are `none`, the
embedding of NaN).
-/

structure Row where
  ts : Int
  vals : List (Option ℚ)
  deriving DecidableEq, Repr

structure Frame where
  header : List String
  rows : List Row
  deriving DecidableEq, Repr

/-! ### Loader (load_data, src/app.py lines 33-39, src/app_v2.py lines 17-22)
`pd.to_datetime(df[ts], utc=True, errors=coerce)` then `dropna(subset=[ts])`
then `sort_values(ts)`.  The timestamp parser itself is external (pandas);
it is passed in as a parameter.  Sorting by timestamp is modelled by
insertion sort on the ts field. -/

structure RawRow where
  tsRaw : String
  vals : List (Option ℚ)
  deriving DecidableEq, Repr

def parseRows (parse : String → Option Int) (raws : List RawRow) : List Row :=
  raws.filterMap (fun rr => (parse rr.tsRaw).map (fun t => { ts := t, vals := rr.vals }))

def tsLE (a b : Row) : Prop := a.ts ≤ b.ts

instance : DecidableRel tsLE := fun a b => Int.decLe a.ts b.ts

instance : IsTotal Row tsLE := ⟨fun a b => Int.le_total a.ts b.ts⟩

instance : IsTrans Row tsLE := ⟨fun _ _ _ h1 h2 => Int.le_trans h1 h2⟩

def sortByTs (l : List Row) : List Row := List.insertionSort tsLE l

def load_data (parse : String → Option Int) (header : List String) (raws : List RawRow) : Frame :=
  { header := header, rows := sortByTs (parseRows parse raws) }

/-! ### Filter (src/app.py lines 104-108, src/app_v2.py lines 91-95)
`mask = (df[ts] >= start_utc) & (df[ts] <= end_utc); dff = df.loc[mask]`
and, when the result is empty, `dff = df.tail(1)` plus a warning.
The Bool component of `filterStep` records whether the warning was shown. -/

def filterWindow (df : Frame) (s e : Int) : Frame :=
  { df with rows := df.rows.filter (fun r => decide (s ≤ r.ts) && decide (r.ts ≤ e)) }

def lastRows (l : List Row) : List Row :=
  match l.getLast? with
  | some r => [r]
  | none => []

def filterStep (df : Frame) (s e : Int) : Frame × Bool :=
  let fd := filterWindow df s e
  if fd.rows.isEmpty then ({ df with rows := lastRows df.rows }, true) else (fd, false)

/-! ### Column access and classifier
(src/app.py lines 116-120, src/app_v2.py lines 102-108)
`dff[c].nunique(dropna=True)` counts distinct non-missing values. -/

def Frame.colIdx (f : Frame) (c : String) : Option Nat :=
  f.header.findIdx? (fun h => h == c)

def Frame.colVals (f : Frame) (c : String) : List (Option ℚ) :=
  match f.colIdx c with
  | some i => f.rows.map (fun r => r.vals.getD i none)
  | none => []

def nuniqCol (f : Frame) (c : String) : Nat :=
  ((f.colVals c).filterMap id).dedup.length

def numeric_in_window (numCols : List String) (dff : Frame) : List String :=
  numCols.filter (fun c => dff.header.contains c)

def uni_vars (numCols : List String) (dff : Frame) : List String :=
  (numeric_in_window numCols dff).filter (fun c => decide (nuniqCol dff c ≤ 1))

def non_univariate (numCols : List String) (dff : Frame) : List String :=
  (numeric_in_window numCols dff).filter (fun c => decide (1 < nuniqCol dff c))

/-- Default variables (src/app.py line 53, src/app_v2.py lines 38-40):
canonical names if present among the numeric columns, else the first two. -/
def default_vars (numCols : List String) : List String :=
  let canon := (["A01_Temp", "A01_Umid"]).filter (fun c => numCols.contains c)
  if canon.isEmpty then numCols.take 2 else canon

/-- Defaults restricted to varying fields (src/app.py line 120,
src/app_v2.py lines 106-108): intersection with the varying set, falling
back to the first two varying fields when the intersection is empty. -/
def defaults_filtered (dv : List String) (nonUni : List String) : List String :=
  let d := dv.filter (fun c => nonUni.contains c)
  if d.isEmpty then nonUni.take 2 else d

/-! ### Variable selection merge (src/app.py line 140)
`vars_selected = list(dict.fromkeys(nonuni_selected + uni_selected))`:
concatenate the two sub-selections and remove duplicates keeping the
first occurrence of each name. -/

def dedupFirstAux (seen : List String) : List String → List String
  | [] => []
  | c :: rest => if c ∈ seen then dedupFirstAux seen rest else c :: dedupFirstAux (c :: seen) rest

def dict_fromkeys (l : List String) : List String := dedupFirstAux [] l

def vars_selected (nonuniSel uniSel : List String) : List String :=
  dict_fromkeys (nonuniSel ++ uniSel)

/-- Index of the first occurrence of a name in a list (length if absent);
used to state that the merged selection is ordered by first occurrence. -/
def firstIdx (x : String) : List String → Nat
  | [] => 0
  | c :: rest => if c = x then 0 else firstIdx x rest + 1

/-! ### Resampler (src/app.py lines 153-154, src/app_v2.py lines 116-117)
`if resample != "nessuna" and not dff.empty: dff.set_index(ts).resample(r).mean(numeric_only=True).reset_index()`.
Buckets are epoch-aligned fixed intervals; each bucket row carries the
arithmetic mean of the present values of each column (none when a bucket
has no present value). -/

def intervalSecs : String → Option Int
  | "5min" => some 300
  | "15min" => some 900
  | "1H" => some 3600
  | "3H" => some 10800
  | "6H" => some 21600
  | _ => none

def bucketOf (sec t : Int) : Int := (Int.fdiv t sec) * sec

def meanOpt (l : List (Option ℚ)) : Option ℚ :=
  let ps := l.filterMap id
  if ps.isEmpty then none else some (ps.sum / (ps.length : ℚ))

def bucketStarts (sec : Int) (rows : List Row) : List Int :=
  match rows.head?, rows.getLast? with
  | some first, some last =>
    let b0 := bucketOf sec first.ts
    let b1 := bucketOf sec last.ts
    (List.range ((Int.fdiv (b1 - b0) sec).toNat + 1)).map (fun k => b0 + sec * (k : Int))
  | _, _ => []

def resampleFrame (sec : Int) (f : Frame) : Frame :=
  { header := f.header,
    rows := (bucketStarts sec f.rows).map (fun b =>
      let bucket := f.rows.filter (fun r => bucketOf sec r.ts == b)
      { ts := b,
        vals := (List.range f.header.length).map (fun i =>
          meanOpt (bucket.map (fun r => r.vals.getD i none))) }) }

def resampleStep (interval : String) (f : Frame) : Frame :=
  if (interval != "nessuna") && (! f.rows.isEmpty) then
    match intervalSecs interval with
    | some sec => resampleFrame sec f
    | none => f
  else f

/-! ### Normalizer (src/app.py lines 157-164, src/app_v2.py lines 120-127)
`plot_df = dff.copy()` then, when the toggle is on and the selection
nonempty, for each selected column present in the frame:
`s = plot_df[c]; rng = s.max() - s.min();
 if pd.notna(rng) and rng != 0: plot_df[c] = (s - s.min()) / rng`.
Pandas max/min skip missing values; an all-missing column yields NaN
(modelled as `none`), and NaN cells stay NaN under the rescaling. -/

def listMin? : List ℚ → Option ℚ
  | [] => none
  | x :: xs =>
    match listMin? xs with
    | none => some x
    | some m => some (min x m)

def listMax? : List ℚ → Option ℚ
  | [] => none
  | x :: xs =>
    match listMax? xs with
    | none => some x
    | some m => some (max x m)

def Frame.colMin (f : Frame) (c : String) : Option ℚ :=
  listMin? ((f.colVals c).filterMap id)

def Frame.colMax (f : Frame) (c : String) : Option ℚ :=
  listMax? ((f.colVals c).filterMap id)

def updateAt : Nat → (Option ℚ → Option ℚ) → List (Option ℚ) → List (Option ℚ)
  | _, _, [] => []
  | 0, g, v :: vs => g v :: vs
  | i + 1, g, v :: vs => v :: updateAt i g vs

def normalizeCol (f : Frame) (c : String) : Frame :=
  match f.colMin c, f.colMax c with
  | some lo, some hi =>
    if hi - lo = 0 then f
    else
      match f.colIdx c with
      | some i =>
        { f with rows := f.rows.map (fun r =>
            { r with vals := updateAt i (Option.map (fun v => (v - lo) / (hi - lo))) r.vals }) }
      | none => f
  | _, _ => f

/-- State of the presentation step: the table/export frame `dff` and the
chart-facing copy `plot_df` (Python: `plot_df = dff.copy()`). -/
structure PresentState where
  dff : Frame
  plot_df : Frame
  deriving DecidableEq, Repr

def normLoop (sel : List String) (st : PresentState) : PresentState :=
  sel.foldl (fun s c =>
    if s.plot_df.header.contains c then { s with plot_df := normalizeCol s.plot_df c } else s) st

def present (normalize : Bool) (sel : List String) (dff : Frame) : PresentState :=
  let st : PresentState := { dff := dff, plot_df := dff }
  if normalize && (! sel.isEmpty) then normLoop sel st else st

/-! ### Export (src/app.py lines 196-203, src/app_v2.py lines 160-164)
The on-screen table shows `dff[cols_to_show]`.  In app_v2.py (line 161)
`cols_to_show = [ts] + [c for c in vars_selected if c in dff.columns]`;
app.py (lines 198-200) additionally falls back, when no selected column
is present, to the timestamp plus the first 5 numeric columns present.
The download instead serializes the whole frame:
`csv = dff.to_csv(index=False).encode(utf-8)`. -/

def serializeCell : Option ℚ → String
  | none => ""
  | some v => toString v

def toCsv (f : Frame) : List (List String) :=
  ("ts" :: f.header) :: f.rows.map (fun r => toString r.ts :: r.vals.map serializeCell)

def cols_to_show_v2 (dff : Frame) (sel : List String) : List String :=
  "ts" :: sel.filter (fun c => dff.header.contains c)

def cols_to_show (numCols : List String) (dff : Frame) (sel : List String) : List String :=
  let base := "ts" :: sel.filter (fun c => dff.header.contains c)
  if base = ["ts"] then "ts" :: (numCols.filter (fun c => dff.header.contains c)).take 5
  else base

def exportCsv (normalize : Bool) (sel : List String) (dff : Frame) : List (List String) :=
  toCsv (present normalize sel dff).dff

/-- Full post-load pipeline: filter, resample, present; the Bool is the
empty-window warning. -/
def pipeline (df : Frame) (s e : Int) (interval : String) (normalize : Bool)
    (sel : List String) : PresentState × Bool :=
  let fd := filterStep df s e
  (present normalize sel (resampleStep interval fd.1), fd.2)

/-! ### Concrete example frames used by witnesses and counterexamples -/

def exDf : Frame :=
  { header := ["A"], rows := [{ ts := 0, vals := [some 1] }, { ts := 10, vals := [some 2] }] }

def exDf2 : Frame :=
  { header := ["A", "B"], rows := [{ ts := 0, vals := [some 1, some 2] }] }

def exDf7 : Frame :=
  { header := ["c1", "c2", "c3", "c4", "c5", "c6", "c7"],
    rows := [{ ts := 0, vals := [some 0, some 0, some 0, some 0, some 0, some 0, some 0] },
             { ts := 1, vals := [some 1, some 1, some 1, some 1, some 1, some 1, some 1] }] }

def exNormFrame : Frame :=
  { header := ["A"], rows := [{ ts := 0, vals := [some 0] }, { ts := 1, vals := [some 1] }] }

def exConstFrame : Frame :=
  { header := ["A"], rows := [{ ts := 0, vals := [some 5] }, { ts := 1, vals := [some 5] }] }

def exOneRow : Frame :=
  { header := ["A", "B"], rows := [{ ts := 0, vals := [some 3, none] }] }

/-! ## Helper lemmas -/

theorem mem_dedupFirstAux (x : String) (seen l : List String) :
    x ∈ dedupFirstAux seen l ↔ (x ∈ l ∧ x ∉ seen) := by
  induction l generalizing seen with
  | nil => simp [dedupFirstAux]
  | cons c rest ih =>
    by_cases hc : c ∈ seen
    · simp only [dedupFirstAux, if_pos hc, ih, List.mem_cons]
      constructor
      · rintro ⟨hx, hns⟩; exact ⟨Or.inr hx, hns⟩
      · rintro ⟨hx | hx, hns⟩
        · exact absurd (hx ▸ hc) hns
        · exact ⟨hx, hns⟩
    · simp only [dedupFirstAux, if_neg hc, List.mem_cons, ih]
      constructor
      · rintro (rfl | ⟨hx, hns⟩)
        · exact ⟨Or.inl rfl, hc⟩
        · exact ⟨Or.inr hx, fun hs => hns (Or.inr hs)⟩
      · rintro ⟨rfl | hx, hns⟩
        · exact Or.inl rfl
        · by_cases hxc : x = c
          · exact Or.inl hxc
          · exact Or.inr ⟨hx, by simp [List.mem_cons, hxc, hns]⟩

theorem sublist_dedupFirstAux (seen l : List String) :
    List.Sublist (dedupFirstAux seen l) l := by
  induction l generalizing seen with
  | nil => simp [dedupFirstAux]
  | cons c rest ih =>
    by_cases hc : c ∈ seen
    · simpa only [dedupFirstAux, if_pos hc] using (ih seen).cons c
    · simpa only [dedupFirstAux, if_neg hc] using (ih (c :: seen)).cons₂ c

theorem nodup_dedupFirstAux (seen l : List String) : (dedupFirstAux seen l).Nodup := by
  induction l generalizing seen with
  | nil => simp [dedupFirstAux]
  | cons c rest ih =>
    by_cases hc : c ∈ seen
    · simpa only [dedupFirstAux, if_pos hc] using ih seen
    · simp only [dedupFirstAux, if_neg hc]
      refine List.nodup_cons.mpr ⟨?_, ih (c :: seen)⟩
      intro hmem
      exact ((mem_dedupFirstAux c (c :: seen) rest).mp hmem).2 (List.mem_cons_self c seen)

theorem firstIdx_cons (x c : String) (l : List String) :
    firstIdx x (c :: l) = if c = x then 0 else firstIdx x l + 1 := rfl

theorem pairwise_firstIdx_dedupFirstAux (seen l : List String) :
    List.Pairwise (fun x y => firstIdx x l < firstIdx y l) (dedupFirstAux seen l) := by
  induction l generalizing seen with
  | nil => simp [dedupFirstAux]
  | cons c rest ih =>
    by_cases hc : c ∈ seen
    · simp only [dedupFirstAux, if_pos hc]
      refine List.Pairwise.imp_of_mem ?_ (ih seen)
      intro x y hx hy hxy
      have hxs := (mem_dedupFirstAux x seen rest).mp hx
      have hys := (mem_dedupFirstAux y seen rest).mp hy
      have hxc : ¬ c = x := fun hcx => hxs.2 (hcx ▸ hc)
      have hyc : ¬ c = y := fun hcy => hys.2 (hcy ▸ hc)
      simp only [firstIdx_cons, if_neg hxc, if_neg hyc]
      omega
    · simp only [dedupFirstAux, if_neg hc]
      refine List.pairwise_cons.mpr ⟨?_, ?_⟩
      · intro y hy
        have hys := (mem_dedupFirstAux y (c :: seen) rest).mp hy
        have hyc : ¬ c = y := fun hcy => hys.2 (hcy ▸ List.mem_cons_self c seen)
        simp only [firstIdx_cons, if_neg hyc, eq_self_iff_true, if_true]
        omega
      · refine List.Pairwise.imp_of_mem ?_ (ih (c :: seen))
        intro x y hx hy hxy
        have hxs := (mem_dedupFirstAux x (c :: seen) rest).mp hx
        have hys := (mem_dedupFirstAux y (c :: seen) rest).mp hy
        have hxc : ¬ c = x := fun hcx => hxs.2 (hcx ▸ List.mem_cons_self c seen)
        have hyc : ¬ c = y := fun hcy => hys.2 (hcy ▸ List.mem_cons_self c seen)
        simp only [firstIdx_cons, if_neg hxc, if_neg hyc]
        omega

theorem normLoop_dff (sel : List String) (st : PresentState) :
    (normLoop sel st).dff = st.dff := by
  induction sel generalizing st with
  | nil => rfl
  | cons c rest ih =>
    have h1 : normLoop (c :: rest) st
        = normLoop rest
          (if st.plot_df.header.contains c
           then { st with plot_df := normalizeCol st.plot_df c } else st) := rfl
    rw [h1, ih]
    by_cases hc : c ∈ st.plot_df.header <;> simp [hc]

theorem present_dff (n : Bool) (sel : List String) (f : Frame) :
    (present n sel f).dff = f := by
  unfold present
  by_cases hn : (n && (! sel.isEmpty)) = true
  · simp [hn, normLoop_dff]
  · simp [hn]

theorem parseRows_length (parse : String → Option Int) (raws : List RawRow) :
    (parseRows parse raws).length
      = (raws.filter (fun rr => (parse rr.tsRaw).isSome)).length := by
  induction raws with
  | nil => rfl
  | cons rr rest ih =>
    cases h : parse rr.tsRaw <;>
      simp [parseRows, List.filterMap_cons, List.filter_cons, h, Option.map] <;>
      simpa [parseRows] using ih

theorem getD_updateAt (g : Option ℚ → Option ℚ) (hg : g none = none) (i : Nat)
    (l : List (Option ℚ)) :
    (updateAt i g l).getD i none = g (l.getD i none) := by
  induction l generalizing i with
  | nil => simp [updateAt, hg, List.getD]
  | cons v vs ih =>
    cases i with
    | zero => simp [updateAt]
    | succ j => simpa [updateAt] using ih j

theorem colIdx_set_rows (f : Frame) (R : List Row) (c : String) :
    ({ f with rows := R } : Frame).colIdx c = f.colIdx c := rfl

/-! ## Claim theorems -/

/-- C8: for every frame, resampling with the no-op interval ("nessuna")
is the identity: the output frame equals the input frame unchanged. -/
theorem C8_resample_none_identity (f : Frame) : resampleStep "nessuna" f = f := by
  simp [resampleStep]

/-- C9: normalization applies only to the chart-facing copy of the frame:
for every toggle value and every selection, the unscaled frame used for
the data table and the CSV export is unchanged by the normalization step. -/
theorem C9_normalization_no_mutation (n : Bool) (sel : List String) (f : Frame) :
    (present n sel f).dff = f ∧ exportCsv n sel f = toCsv f := by
  refine ⟨present_dff n sel f, ?_⟩
  unfold exportCsv
  rw [present_dff]

/-- C2 counterexample: with frame columns A and B and selection containing
only A, the exported CSV still carries column B, which is neither the
timestamp column nor selected — so the export is not restricted to the
timestamp plus selected columns. -/
theorem C2_counterexample :
    (exportCsv true (["A"] : List String) exDf2).head? = some (["ts", "A", "B"] : List String)
    ∧ ("B" : String) ∈ (["ts", "A", "B"] : List String)
    ∧ ("B" : String) ∉ ("ts" :: (["A"] : List String)) := by
  refine ⟨?_, by decide, by decide⟩
  unfold exportCsv
  rw [present_dff]
  rfl

/-- C2, amended: the exported CSV contains the timestamp column plus ALL
columns of the filtered/derived frame at the moment of export (header row
included), regardless of the current variable selection and of the
normalization toggle, with one data row per frame row. -/
theorem C2_export_frame_columns (n : Bool) (sel : List String) (dff : Frame) :
    (exportCsv n sel dff).head? = some ("ts" :: dff.header)
    ∧ (exportCsv n sel dff).length = dff.rows.length + 1
    ∧ (∀ c, c ∈ "ts" :: dff.header ↔ (c = "ts" ∨ c ∈ dff.header)) := by
  unfold exportCsv
  rw [present_dff]
  exact ⟨rfl, by simp [toCsv], fun c => List.mem_cons⟩

/-- C3: the filter returns exactly the rows with start ≤ ts ≤ end (both
inclusive): the result is a sub-sequence of the table whose members are
precisely the in-window rows; an inverted window (start > end) yields
zero rows and then triggers the last-row fallback. -/
theorem C3_filter_window_exact (df : Frame) (s e : Int) :
    List.Sublist (filterWindow df s e).rows df.rows
    ∧ (∀ r, r ∈ (filterWindow df s e).rows ↔ (r ∈ df.rows ∧ s ≤ r.ts ∧ r.ts ≤ e))
    ∧ (e < s →
        ((filterWindow df s e).rows = []
          ∧ filterStep df s e = ({ df with rows := lastRows df.rows }, true))) := by
  refine ⟨List.filter_sublist _, ?_, ?_⟩
  · intro r
    simp [filterWindow, List.mem_filter, decide_eq_true_eq, and_assoc]
  · intro hinv
    have hnil : (filterWindow df s e).rows = [] := by
      apply List.filter_eq_nil_iff.mpr
      intro r _
      simp only [Bool.and_eq_true, decide_eq_true_eq, not_and]
      intro h1 h2
      exact absurd (le_trans h1 h2) (not_le.mpr hinv)
    refine ⟨hnil, ?_⟩
    simp [filterStep, hnil]

/-- C3 witness: on a concrete two-row table the inverted window (5, 3)
yields zero rows and the last-row fallback fires with a warning. -/
theorem C3_witness :
    (3 : Int) < 5
    ∧ filterStep exDf 5 3 = ({ exDf with rows := lastRows exDf.rows }, true) :=
  ⟨by decide, ((C3_filter_window_exact exDf 5 3).2.2 (by decide)).2⟩

/-- C4: whenever the window filter yields an empty result, the pipeline
substitutes the single last row of the full table and reports the warning
(the Bool component), and the downstream frame always has at least one
row; a nonempty filter result passes through with no warning. -/
theorem C4_empty_window_fallback (df : Frame) (s e : Int) (h : df.rows ≠ []) :
    ((filterWindow df s e).rows = [] →
        filterStep df s e = ({ df with rows := [df.rows.getLast h] }, true))
    ∧ (filterStep df s e).1.rows ≠ []
    ∧ ((filterWindow df s e).rows ≠ [] → filterStep df s e = (filterWindow df s e, false)) := by
  have hlast : lastRows df.rows = [df.rows.getLast h] := by
    unfold lastRows
    rw [List.getLast?_eq_getLast_of_ne_nil h]
  refine ⟨?_, ?_, ?_⟩
  · intro hnil
    simp [filterStep, hnil, hlast]
  · by_cases hnil : (filterWindow df s e).rows = []
    · simp [filterStep, hnil, hlast]
    · simp only [filterStep, List.isEmpty_iff]
      rw [if_neg hnil]
      exact hnil
  · intro hne
    simp only [filterStep, List.isEmpty_iff]
    rw [if_neg hne]

/-- C4 witness: on a concrete two-row table the empty window (100, 200)
makes the pipeline fall back to a nonempty frame. -/
theorem C4_witness :
    exDf.rows ≠ [] ∧ (filterStep exDf 100 200).1.rows ≠ [] :=
  ⟨by decide, (C4_empty_window_fallback exDf 100 200 (by decide)).2.1⟩

/-- C1 counterexample: on a concrete table with seven varying numeric
columns, selecting all seven offered options produces a selection of
seven field names — the merged selection is passed downstream with more
than 6 entries, so no 6-entry cap exists. -/
theorem C1_counterexample :
    non_univariate exDf7.header exDf7 = exDf7.header
    ∧ vars_selected (non_univariate exDf7.header exDf7) [] = exDf7.header
    ∧ (vars_selected (non_univariate exDf7.header exDf7) []).length = 7
    ∧ ¬ ((vars_selected (non_univariate exDf7.header exDf7) []).length ≤ 6) := by
  refine ⟨by decide, by decide, by decide, by decide⟩

/-- C1, amended: the merged variable selection removes duplicates across
the two sub-selections keeping the first occurrence of each name: it has
no duplicates, is a sub-sequence of the concatenated sub-selections,
contains exactly the selected names, and is ordered by first occurrence;
no cap on the number of entries is enforced. -/
theorem C1_vars_selected_dedup (a b : List String) :
    (vars_selected a b).Nodup
    ∧ List.Sublist (vars_selected a b) (a ++ b)
    ∧ (∀ x, x ∈ vars_selected a b ↔ x ∈ a ++ b)
    ∧ List.Pairwise (fun x y => firstIdx x (a ++ b) < firstIdx y (a ++ b)) (vars_selected a b) := by
  refine ⟨nodup_dedupFirstAux [] (a ++ b), sublist_dedupFirstAux [] (a ++ b), ?_,
    pairwise_firstIdx_dedupFirstAux [] (a ++ b)⟩
  intro x
  simpa using mem_dedupFirstAux x [] (a ++ b)

/-- C5: the loader output contains exactly the parseable rows (rows with
unparseable ts are dropped: the output is a permutation of the parsed
rows and its length is the number of parseable input rows) and is sorted
non-decreasing by timestamp. -/
theorem C5_load_data_correct (parse : String → Option Int) (header : List String)
    (raws : List RawRow) :
    List.Perm (load_data parse header raws).rows (parseRows parse raws)
    ∧ (load_data parse header raws).rows.length
        = (raws.filter (fun rr => (parse rr.tsRaw).isSome)).length
    ∧ List.Pairwise (fun a b : Row => a.ts ≤ b.ts) (load_data parse header raws).rows := by
  have hperm : List.Perm (load_data parse header raws).rows (parseRows parse raws) :=
    List.perm_insertionSort tsLE (parseRows parse raws)
  refine ⟨hperm, ?_, ?_⟩
  · rw [hperm.length_eq, parseRows_length]
  · exact List.sorted_insertionSort tsLE (parseRows parse raws)

/-- C6: for every frame and target field whose observed maximum differs
from its observed minimum (both computed over the values present in the
frame), normalization rescales each present value of the field to
(value - min) / (max - min), mapping the minimum to 0 and the maximum
to 1, and leaving missing cells missing. -/
theorem C6_normalize_rescale (f : Frame) (c : String) (lo hi : ℚ)
    (hlo : f.colMin c = some lo) (hhi : f.colMax c = some hi) (hne : hi ≠ lo) :
    (normalizeCol f c).colVals c
        = (f.colVals c).map (Option.map (fun v => (v - lo) / (hi - lo)))
    ∧ (lo - lo) / (hi - lo) = 0 ∧ (hi - lo) / (hi - lo) = 1 := by
  have hrng : hi - lo ≠ 0 := sub_ne_zero.mpr hne
  refine ⟨?_, by simp, div_self hrng⟩
  cases hidx : f.colIdx c with
  | none =>
    exfalso
    have hcv : f.colVals c = [] := by simp [Frame.colVals, hidx]
    rw [Frame.colMin, hcv] at hlo
    simp [listMin?] at hlo
  | some i =>
    have hnorm : normalizeCol f c = { f with rows := f.rows.map (fun r =>
        { r with vals := updateAt i (Option.map (fun v => (v - lo) / (hi - lo))) r.vals }) } := by
      simp only [normalizeCol, hlo, hhi, hidx, if_neg hrng]
    rw [hnorm]
    simp only [Frame.colVals, colIdx_set_rows, hidx, List.map_map]
    apply List.map_congr_left
    intro r _
    exact getD_updateAt _ rfl i r.vals

/-- C6 witness: on a concrete frame with column A holding values 0 and 1,
normalization maps the column to (v - 0) / (1 - 0). -/
theorem C6_witness :
    exNormFrame.colMin "A" = some 0
    ∧ exNormFrame.colMax "A" = some 1
    ∧ (normalizeCol exNormFrame "A").colVals "A"
        = (exNormFrame.colVals "A").map (Option.map (fun v => (v - 0) / (1 - 0))) :=
  ⟨by decide, by decide,
    (C6_normalize_rescale exNormFrame "A" 0 1 (by decide) (by decide) (by decide)).1⟩

/-- C7: for every target field whose range is degenerate — the observed
minimum equals the observed maximum, which covers both a constant
in-window field and an all-missing field — normalization leaves the
frame unchanged (pass-through); no division by zero is performed. -/
theorem C7_normalize_degenerate (f : Frame) (c : String)
    (h : f.colMin c = f.colMax c) : normalizeCol f c = f := by
  cases hmin : f.colMin c with
  | none =>
    have hmax : f.colMax c = none := by rw [← h, hmin]
    simp [normalizeCol, hmin, hmax]
  | some v =>
    have hmax : f.colMax c = some v := by rw [← h, hmin]
    simp [normalizeCol, hmin, hmax]

/-- C7 witness: a frame whose column A is constantly 5 passes through
normalization unchanged. -/
theorem C7_witness :
    exConstFrame.colMin "A" = exConstFrame.colMax "A"
    ∧ normalizeCol exConstFrame "A" = exConstFrame :=
  ⟨by decide, C7_normalize_degenerate exConstFrame "A" (by decide)⟩

/-- C10: for every filtered frame containing exactly one row, every field
has at most one distinct non-missing value, so the classifier marks every
numeric field present in the frame as constant, the varying set is empty,
and in the variant restricted to varying fields both the selectable
options and the default selection are empty. -/
theorem C10_single_row_constant (numCols dv : List String) (dff : Frame)
    (h : dff.rows.length = 1) :
    (∀ c, nuniqCol dff c ≤ 1)
    ∧ uni_vars numCols dff = numeric_in_window numCols dff
    ∧ non_univariate numCols dff = []
    ∧ defaults_filtered dv (non_univariate numCols dff) = [] := by
  have hnu : ∀ c, nuniqCol dff c ≤ 1 := by
    intro c
    have hlen : (dff.colVals c).length ≤ 1 := by
      unfold Frame.colVals
      cases hidx : dff.colIdx c
      · simp
      · simp [h]
    calc ((dff.colVals c).filterMap id).dedup.length
        ≤ ((dff.colVals c).filterMap id).length :=
          (List.dedup_sublist _).length_le
      _ ≤ (dff.colVals c).length := List.length_filterMap_le id _
      _ ≤ 1 := hlen
  have hnonuni : non_univariate numCols dff = [] := by
    apply List.filter_eq_nil_iff.mpr
    intro c _
    simp only [decide_eq_true_eq, not_lt]
    exact hnu c
  refine ⟨hnu, ?_, hnonuni, ?_⟩
  · apply List.filter_eq_self.mpr
    intro c _
    simp only [decide_eq_true_eq]
    exact hnu c
  · rw [hnonuni]
    simp [defaults_filtered]

/-- C10 witness: a concrete one-row frame with columns A and B has no
varying column and an empty restricted default selection. -/
theorem C10_witness :
    exOneRow.rows.length = 1
    ∧ non_univariate (["A", "B"] : List String) exOneRow = []
    ∧ defaults_filtered (["A01_Temp"] : List String)
        (non_univariate (["A", "B"] : List String) exOneRow) = [] :=
  ⟨by decide,
    (C10_single_row_constant ["A", "B"] ["A01_Temp"] exOneRow (by decide)).2.2.1,
    (C10_single_row_constant ["A", "B"] ["A01_Temp"] exOneRow (by decide)).2.2.2⟩
